import Mathlib

/-!
# RuvScan GitHub scanner: scan orchestration

A shallow embedding of `src/go/scanner/main.go` and `src/go/scanner/server.go`.

Effects are made explicit.  The upstream API is a script of responses: the answers the
successive `ListByOrg` calls receive and the answers (with the clock reading) the successive
`RateLimits` calls receive.  Every function that performs effects returns the trace of the
effects it performed, in program order.  `log.Printf` lines are left out of the traces except
where evaluating their arguments can fail.
-/

namespace RuvScan

/-! ## Constants and data model -/

/-- The constant `MaxWorkers`. -/
def MaxWorkers : Int := 10

/-- The constant `RateLimitPad`: keep 100 requests in reserve. -/
def RateLimitPad : Int := 100

/-- Go `error` values: an error carrying a message, or `fmt.Errorf(msg ++ "%w", inner)`. -/
inductive GoError where
  | plain (msg : String)
  | wrap (msg : String) (inner : GoError)
  deriving DecidableEq, Repr

/-- The method `Error()` of an error value. -/
def GoError.Error : GoError → String
  | .plain msg => msg
  | .wrap msg inner => msg ++ inner.Error

/-- The function `errors.Unwrap`. -/
def GoError.Unwrap : GoError → Option GoError
  | .plain _ => none
  | .wrap _ inner => some inner

/-- The struct `ScanConfig`. -/
structure ScanConfig where
  SourceType : String
  SourceName : String
  Limit : Int
  Token : String
  MCPEndpoint : String
  deriving DecidableEq, Repr

/-- The struct `RepoData`. -/
structure RepoData where
  Name : String
  Org : String
  FullName : String
  Description : String
  Topics : List String
  README : String
  Stars : Int
  Language : String
  deriving DecidableEq, Repr

/-- The struct `github.User`, reduced to the field the scanner reads; a nil pointer field is
`none`. -/
structure User where
  Login : Option String
  deriving DecidableEq, Repr

/-- The struct `github.Repository`, reduced to the fields the scanner reads.  Pointer fields are
options (`none` is nil); `Topics` is a slice. -/
structure Repository where
  Name : Option String
  Owner : Option User
  FullName : Option String
  Description : Option String
  Topics : List String
  StargazersCount : Option Int
  Language : Option String
  deriving DecidableEq, Repr

/-- The getter `GetLogin` on a possibly nil `*User`. -/
def User.GetLogin (u : Option User) : String :=
  match u with
  | none => ""
  | some v => v.Login.getD ""

def Repository.GetName (r : Repository) : String := r.Name.getD ""
def Repository.GetOwner (r : Repository) : Option User := r.Owner
def Repository.GetFullName (r : Repository) : String := r.FullName.getD ""
def Repository.GetDescription (r : Repository) : String := r.Description.getD ""
def Repository.GetStargazersCount (r : Repository) : Int := r.StargazersCount.getD 0
def Repository.GetLanguage (r : Repository) : String := r.Language.getD ""

/-- One successful answer of `Repositories.ListByOrg`: the repositories of the page and
`resp.NextPage` (0 when there is no further page). -/
structure Page where
  repos : List Repository
  NextPage : Int
  deriving DecidableEq, Repr

/-- The core entry of a successful `RateLimits` answer (`rate.GetCore()`); `Reset` is a point in
time, in nanoseconds on the scale of the clock. -/
structure Rate where
  Limit : Int
  Remaining : Int
  Reset : Int
  deriving DecidableEq, Repr

/-- The answer to a call: a value or an error. -/
inductive Resp (α : Type) where
  | ok (val : α)
  | err (e : GoError)
  deriving DecidableEq, Repr

/-- The upstream as the scanner sees it: the answers to its successive `ListByOrg` calls, and the
answers to its successive `RateLimits` calls, each with the reading of the clock taken by
`time.Until` during that check. -/
structure Upstream where
  lists : List (Resp Page)
  rates : List (Resp Rate × Int)
  deriving Repr

/-- The effects of the Scan Coordinator, in program order. -/
inductive Event where
  | listByOrg (page : Int) (resp : Resp Page)
  | goProcessRepo (repo : Repository)
  | rateLimits (resp : Resp Rate)
  | sleep (d : Int)
  | goProcessResults
  | wgWait
  | closeResults
  | closeErrors
  deriving DecidableEq, Repr

/-- How a run ended: the function returned (with or without an error), or it issued an upstream
call for which the script holds no answer. -/
inductive Outcome where
  | returned (err : Option GoError)
  | awaiting
  deriving DecidableEq, Repr

/-- A run: its trace and how it ended. -/
structure ScanRun where
  trace : List Event
  outcome : Outcome
  deriving DecidableEq, Repr

/-- Put the events `evs` before a run. -/
def ScanRun.after (evs : List Event) (r : ScanRun) : ScanRun :=
  ⟨evs ++ r.trace, r.outcome⟩

/-! ## The Rate Governor -/

/-- The constant `minDuration` of package `time`: the least `Duration`, in nanoseconds. -/
def minDuration : Int := -9223372036854775808

/-- The constant `maxDuration` of package `time`: the greatest `Duration`, in nanoseconds. -/
def maxDuration : Int := 9223372036854775807

/-- The function `time.Until(t)` with the clock reading `now`, both in nanoseconds: `t.Sub(now)`,
an int64 `Duration`, which is the difference when that fits and `maxDuration` or `minDuration`
when it does not. -/
def timeUntil (t now : Int) : Int :=
  if t - now > maxDuration then maxDuration
  else if t - now < minDuration then minDuration
  else t - now

/-- The pause `time.Sleep(d)` guarantees: a negative or zero duration returns at once. -/
def sleepPause (d : Int) : Int := max d 0

/-- The method `checkRateLimit`: the events it performs and the error it returns. -/
def checkRateLimit (resp : Resp Rate) (now : Int) : List Event × Option GoError :=
  match resp with
  | .err e => ([.rateLimits resp], some e)
  | .ok core =>
    let remaining := core.Remaining
    if remaining < RateLimitPad then
      let resetTime := core.Reset
      let sleepDuration := timeUntil resetTime now
      ([.rateLimits resp, .sleep sleepDuration], none)
    else
      ([.rateLimits resp], none)

/-! ## The Scan Coordinator -/

/-- The inner loop of `ScanOrg` over the repositories of one page, from `repoCount`: the
dispatch events, the new `repoCount`, and whether the loop left through `return nil`. -/
def dispatchRepos (limit : Int) : Int → List Repository → List Event × Int × Bool
  | repoCount, [] => ([], repoCount, false)
  | repoCount, repo :: rest =>
    if repoCount ≥ limit then ([], repoCount, true)
    else
      let r := dispatchRepos limit (repoCount + 1) rest
      (.goProcessRepo repo :: r.1, r.2.1, r.2.2)

/-- The outer loop of `ScanOrg`, from `opts.Page = page` and `repoCount`. -/
def scanLoop (limit : Int) : List (Resp Page) → List (Resp Rate × Int) → Int → Int → ScanRun
  | [], _, _, _ => ⟨[], .awaiting⟩
  | .err e :: _, _, page, _ =>
    ⟨[.listByOrg page (.err e)], .returned (some (.wrap "error listing repos: " e))⟩
  | .ok pg :: lists, rates, page, repoCount =>
    let d := dispatchRepos limit repoCount pg.repos
    if d.2.2 then ⟨.listByOrg page (.ok pg) :: d.1, .returned none⟩
    else if pg.NextPage = 0 then ⟨.listByOrg page (.ok pg) :: d.1, .returned none⟩
    else
      match rates with
      | [] => ⟨.listByOrg page (.ok pg) :: d.1, .awaiting⟩
      | (rate, now) :: rates =>
        let c := checkRateLimit rate now
        match c.2 with
        | some e => ⟨.listByOrg page (.ok pg) :: d.1 ++ c.1, .returned (some e)⟩
        | none =>
          (scanLoop limit lists rates pg.NextPage d.2.1).after
            (.listByOrg page (.ok pg) :: d.1 ++ c.1)

/-- The method `ScanOrg`. -/
def ScanOrg (config : ScanConfig) (up : Upstream) : ScanRun :=
  scanLoop config.Limit up.lists up.rates 0 0

/-- The method `Run`: start the result processor, scan by source type, wait for the workers and
close both streams. -/
def Run (config : ScanConfig) (up : Upstream) : ScanRun :=
  let r : ScanRun :=
    if config.SourceType = "org" then ScanOrg config up
    else if config.SourceType = "user" then
      ⟨[], .returned (some (.plain "user scanning not yet implemented"))⟩
    else if config.SourceType = "topic" then
      ⟨[], .returned (some (.plain "topic scanning not yet implemented"))⟩
    else
      ⟨[], .returned (some (.plain ("unknown source type: " ++ config.SourceType)))⟩
  match r.outcome with
  | .awaiting => ⟨.goProcessResults :: r.trace, .awaiting⟩
  | .returned err =>
    ⟨.goProcessResults :: r.trace ++ [.wgWait, .closeResults, .closeErrors], .returned err⟩

/-! ## The Repository Worker -/

/-- The content object `Repositories.GetReadme` returns; its `GetContent` decodes the README or
fails. -/
structure RepositoryContent where
  GetContent : Resp String
  deriving DecidableEq, Repr

/-- The effects of one Repository Worker, in program order.  `nilDereference` is the run-time
panic of dereferencing a nil pointer. -/
inductive WorkerEvent where
  | publishResult (data : RepoData)
  | publishError (e : GoError)
  | nilDereference
  | wgDone
  deriving DecidableEq, Repr

/-- The method `fetchREADME`, given the answer of `Repositories.GetReadme`: the pair it
returns. -/
def fetchREADME (getReadme : Resp RepositoryContent) : String × Option GoError :=
  match getReadme with
  | .err e => ("", some e)
  | .ok readme =>
    match readme.GetContent with
    | .err e => ("", some e)
    | .ok content => (content, none)

/-- The method `sendToMCP`, given the outcome of `json.Marshal` on the record. -/
def sendToMCP (config : ScanConfig) (marshal : RepoData → Resp String) (data : RepoData) :
    Option GoError :=
  if config.MCPEndpoint = "" then none
  else
    match marshal data with
    | .err e => some e
    | .ok _ => none

/-- The part of `processRepo` after the README fetch, with the README it settled on. -/
def processRepoRecord (config : ScanConfig) (marshal : RepoData → Resp String)
    (repo : Repository) (readme : String) : List WorkerEvent :=
  let data : RepoData :=
    { Name := repo.GetName
      Org := User.GetLogin repo.GetOwner
      FullName := repo.GetFullName
      Description := repo.GetDescription
      Topics := repo.Topics
      README := readme
      Stars := repo.GetStargazersCount
      Language := repo.GetLanguage }
  match sendToMCP config marshal data with
  | some e => [.publishResult data, .publishError (.wrap "failed to send to MCP: " e), .wgDone]
  | none => [.publishResult data, .wgDone]

/-- The method `processRepo`.  When the README fetch fails, the warning line evaluates
`*repo.FullName`; on a nil `FullName` that panics, and the deferred `wg.Done` runs while the
panic unwinds. -/
def processRepo (config : ScanConfig) (marshal : RepoData → Resp String)
    (getReadme : Resp RepositoryContent) (repo : Repository) : List WorkerEvent :=
  let f := fetchREADME getReadme
  match f.2 with
  | some _ =>
    match repo.FullName with
    | none => [.nilDereference, .wgDone]
    | some _ => processRepoRecord config marshal repo ""
  | none => processRepoRecord config marshal repo f.1

/-- The records a worker trace publishes on the result stream. -/
def publishedResults : List WorkerEvent → List RepoData
  | [] => []
  | .publishResult data :: evs => data :: publishedResults evs
  | _ :: evs => publishedResults evs

/-- The errors a worker trace publishes on the error stream. -/
def publishedErrors : List WorkerEvent → List GoError
  | [] => []
  | .publishError e :: evs => e :: publishedErrors evs
  | _ :: evs => publishedErrors evs

/-! ## The Result Aggregator -/

/-- A buffered channel: the values sent and not yet received, and whether it was closed. -/
structure Chan (α : Type) where
  queue : List α
  closed : Bool
  deriving DecidableEq, Repr

/-- The capacity of the two channels `NewScanner` makes. -/
def chanCapacity : Nat := 100

/-- A line `processResults` logs. -/
inductive LogLine where
  | processed (fullName : String) (stars : Int)
  | error (e : GoError)
  deriving DecidableEq, Repr

/-- The two streams, the log of `processResults`, and whether `processResults` has returned. -/
structure AggState where
  results : Chan RepoData
  errors : Chan GoError
  log : List LogLine
  returned : Bool
  deriving DecidableEq, Repr

/-- The state `NewScanner` sets up: both channels empty and open. -/
def AggState.init : AggState := ⟨⟨[], false⟩, ⟨[], false⟩, [], false⟩

/-- The two cases of the `select` in `processResults`. -/
inductive Case where
  | results
  | errors
  deriving DecidableEq, Repr

/-- The steps of the system around the two streams: a worker sends, `Run` closes, or
`processResults` takes one case of its `select`. -/
inductive Action where
  | sendResult (data : RepoData)
  | sendError (e : GoError)
  | closeResults
  | closeErrors
  | select (c : Case)
  deriving DecidableEq, Repr

/-- One iteration of the loop of `processResults` taking case `c`; `none` when that case is not
ready (the channel is open and empty) or `processResults` has already returned. -/
def processResultsStep (s : AggState) (c : Case) : Option AggState :=
  if s.returned then none
  else
    match c with
    | .results =>
      match s.results.queue with
      | result :: rest =>
        some { s with results := ⟨rest, s.results.closed⟩
                      log := s.log ++ [.processed result.FullName result.Stars] }
      | [] => if s.results.closed then some { s with returned := true } else none
    | .errors =>
      match s.errors.queue with
      | err :: rest =>
        some { s with errors := ⟨rest, s.errors.closed⟩
                      log := s.log ++ [.error err] }
      | [] => if s.errors.closed then some { s with returned := true } else none

/-- One step of the system; `none` when the action is not enabled.  A send needs an open channel
with room in its buffer; `Run` closes the result stream first and the error stream second. -/
def step (s : AggState) : Action → Option AggState
  | .sendResult data =>
    if s.results.closed || decide (chanCapacity ≤ s.results.queue.length) then none
    else some { s with results := ⟨s.results.queue ++ [data], false⟩ }
  | .sendError e =>
    if s.errors.closed || decide (chanCapacity ≤ s.errors.queue.length) then none
    else some { s with errors := ⟨s.errors.queue ++ [e], false⟩ }
  | .closeResults =>
    if s.results.closed then none else some { s with results := ⟨s.results.queue, true⟩ }
  | .closeErrors =>
    if s.results.closed && !s.errors.closed then
      some { s with errors := ⟨s.errors.queue, true⟩ }
    else none
  | .select c => processResultsStep s c

/-- Run a schedule, a sequence of actions, from a state. -/
def runSchedule : AggState → List Action → Option AggState
  | s, [] => some s
  | s, a :: rest =>
    match step s a with
    | none => none
    | some t => runSchedule t rest

/-! ## The Scan Trigger Service -/

/-- The struct `ScanRequest`. -/
structure ScanRequest where
  SourceType : String
  SourceName : String
  Limit : Int
  deriving DecidableEq, Repr

/-- The struct `ScanResponse`. -/
structure ScanResponse where
  Status : String
  Message : String
  Scanned : Int
  deriving DecidableEq, Repr

/-- The struct `ScannerServer`. -/
structure ScannerServer where
  port : String
  token : String
  mcpEndpoint : String
  deriving DecidableEq, Repr

/-- The value of a member of a JSON object, by what decoding it into a `string` or an `int`
field makes of it: `null`, a string, a number literal that is an integer, or any other value (a
bool, an array, an object, a number with a fraction or an exponent). -/
inductive JsonValue where
  | null
  | str (s : String)
  | int (n : Int)
  | other
  deriving DecidableEq, Repr

/-- The request body as `json.NewDecoder(r.Body).Decode` reads its first value: no JSON value
(empty or malformed input), the value `null`, an object with its members in order, or another
value. -/
inductive RequestBody where
  | malformed
  | null
  | object (members : List (String × JsonValue))
  | other
  deriving DecidableEq, Repr

/-- The fields of `ScanRequest`. -/
inductive RequestField where
  | SourceType
  | SourceName
  | Limit
  deriving DecidableEq, Repr

/-- Whether the rune `c` of a key equals the rune `a` of a field name under Unicode simple case
folding, for an ASCII `a`: the same rune, the same ASCII letter in the other case, the long s
(U+017F) for `s`, or the Kelvin sign (U+212A) for `k`. -/
def equalFoldRune (a c : Char) : Bool :=
  a == c || (a.isAlpha && c.isAlpha && a.toLower == c.toLower) ||
    (a.toLower == 's' && c == Char.ofNat 0x17F) ||
    (a.toLower == 'k' && c == Char.ofNat 0x212A)

/-- Rune by rune comparison under case folding. -/
def equalFoldRunes : List Char → List Char → Bool
  | [], [] => true
  | a :: name, c :: key => equalFoldRune a c && equalFoldRunes name key
  | _, _ => false

/-- Whether a key names a field for `encoding/json`: the names are equal under case folding
(an exact match is a special case). -/
def equalFold (name key : String) : Bool := equalFoldRunes name.data key.data

/-- The field of `ScanRequest` a member key sets, from the `json` tags of the struct. -/
def fieldFor (key : String) : Option RequestField :=
  if equalFold "source_type" key then some .SourceType
  else if equalFold "source_name" key then some .SourceName
  else if equalFold "limit" key then some .Limit
  else none

/-- Whether an integer fits the Go type `int` (64 bits). -/
def fitsInt (n : Int) : Bool :=
  decide (-9223372036854775808 ≤ n) && decide (n ≤ 9223372036854775807)

/-- Decoding one member into `req`: a key that names no field is skipped, `null` leaves the
field as it is, a value of the type of the field sets it, and any other value is a type error
(`none`). -/
def decodeMember (req : ScanRequest) (key : String) (v : JsonValue) : Option ScanRequest :=
  match fieldFor key with
  | none => some req
  | some f =>
    match v, f with
    | .null, _ => some req
    | .str s, .SourceType => some { req with SourceType := s }
    | .str s, .SourceName => some { req with SourceName := s }
    | .int n, .Limit => if fitsInt n then some { req with Limit := n } else none
    | _, _ => none

/-- Decoding the members of an object in order, so that a later member overrides an earlier
one for the same field; `none` when a member is a type error. -/
def decodeMembers : List (String × JsonValue) → ScanRequest → Option ScanRequest
  | [], req => some req
  | (key, v) :: rest, req =>
    match decodeMember req key v with
    | none => none
    | some next => decodeMembers rest next

/-- The statement `json.NewDecoder(r.Body).Decode(&req)` on the zero-valued `req`: the request
decoded, or `none` when `Decode` returns an error. -/
def decodeBody : RequestBody → Option ScanRequest
  | .malformed => none
  | .null => some ⟨"", "", 0⟩
  | .object members => decodeMembers members ⟨"", "", 0⟩
  | .other => none

/-- An HTTP request as `handleScan` reads it: the method and the body. -/
structure HttpRequest where
  Method : String
  Body : RequestBody
  deriving DecidableEq, Repr

/-- What was written to the response: the text handed to `http.Error`, the text
"Invalid request: " followed by the message of the decode error (which is not modelled), or an
encoded `ScanResponse`. -/
inductive ResponseBody where
  | text (msg : String)
  | invalidRequest
  | json (r : ScanResponse)
  deriving DecidableEq, Repr

/-- The outcome of a handler: status code, body, and the configurations of the scans it
launched in the background (`NewScanner(config).Run()`). -/
structure Handled where
  status : Nat
  body : ResponseBody
  launched : List ScanConfig
  deriving DecidableEq, Repr

/-- The method `handleScan`. -/
def handleScan (s : ScannerServer) (r : HttpRequest) : Handled :=
  if r.Method ≠ "POST" then ⟨405, .text "Method not allowed", []⟩
  else
    match decodeBody r.Body with
    | none => ⟨400, .invalidRequest, []⟩
    | some req =>
      if req.SourceType = "" ∨ req.SourceName = "" then
        ⟨400, .text "source_type and source_name are required", []⟩
      else
        let req : ScanRequest := if req.Limit = 0 then { req with Limit := 50 } else req
        let config : ScanConfig :=
          { SourceType := req.SourceType
            SourceName := req.SourceName
            Limit := req.Limit
            Token := s.token
            MCPEndpoint := s.mcpEndpoint }
        let response : ScanResponse :=
          { Status := "started"
            Message := "Scan initiated for " ++ req.SourceType ++ ": " ++ req.SourceName
            Scanned := 0 }
        ⟨202, .json response, [config]⟩

/-! ## Reading traces -/

/-- The repositories for which a worker was started, in dispatch order. -/
def dispatched : List Event → List Repository
  | [] => []
  | .goProcessRepo repo :: evs => repo :: dispatched evs
  | _ :: evs => dispatched evs

/-- The page numbers of the listing requests, in order. -/
def listCalls : List Event → List Int
  | [] => []
  | .listByOrg page _ :: evs => page :: listCalls evs
  | _ :: evs => listCalls evs

/-- The repositories of the pages listed successfully, in order. -/
def listedRepos : List Event → List Repository
  | [] => []
  | .listByOrg _ (.ok pg) :: evs => pg.repos ++ listedRepos evs
  | _ :: evs => listedRepos evs

/-- The answers the listing requests received, in order. -/
def listResponses : List Event → List (Resp Page)
  | [] => []
  | .listByOrg _ resp :: evs => resp :: listResponses evs
  | _ :: evs => listResponses evs

/-- The durations handed to `time.Sleep`, in order. -/
def sleeps : List Event → List Int
  | [] => []
  | .sleep d :: evs => d :: sleeps evs
  | _ :: evs => sleeps evs

/-- The repositories a sequence of pages holds, in upstream order. -/
def allRepos : List Page → List Repository
  | [] => []
  | pg :: pgs => pg.repos ++ allRepos pgs

/-- A source as a sequence of pages: every page but the last carries a next-page cursor, the
last carries none. -/
def isPageSequence : List Page → Bool
  | [] => false
  | [pg] => decide (pg.NextPage = 0)
  | pg :: next :: pgs => decide (pg.NextPage ≠ 0) && isPageSequence (next :: pgs)

/-- An upstream call: a listing request or a rate-status query. -/
def Event.isUpstreamCall : Event → Bool
  | .listByOrg _ _ => true
  | .rateLimits _ => true
  | _ => false

/-- An upstream call that failed. -/
def Event.isFailedCall : Event → Bool
  | .listByOrg _ (.err _) => true
  | .rateLimits (.err _) => true
  | _ => false

/-! ## Sample inputs -/

def sampleRepoA : Repository :=
  ⟨some "alpha", some ⟨some "acme"⟩, some "acme/alpha", some "first", ["go"], some 3, some "Go"⟩

def sampleRepoB : Repository :=
  ⟨some "beta", some ⟨some "acme"⟩, some "acme/beta", none, [], some 0, none⟩

def sampleConfig (limit : Int) : ScanConfig := ⟨"org", "acme", limit, "", ""⟩

/-- Two pages of one repository each; the first carries the cursor 2. -/
def twoPages : List Page := [⟨[sampleRepoA], 2⟩, ⟨[sampleRepoB], 0⟩]

/-- Both pages are listed and the rate-status query reports plenty of quota. -/
def twoPageUpstream : Upstream := ⟨twoPages.map Resp.ok, [(.ok ⟨5000, 4000, 1000⟩, 400)]⟩

/-- The rate-status query after the first page fails. -/
def rateFailsUpstream : Upstream := ⟨twoPages.map Resp.ok, [(.err (.plain "rate: 503"), 400)]⟩

/-- The listing of the second page fails. -/
def listFailsUpstream : Upstream :=
  ⟨[.ok ⟨[sampleRepoA], 2⟩, .err (.plain "list: 401")], [(.ok ⟨5000, 4000, 1000⟩, 400)]⟩

def sampleRecord : RepoData := ⟨"alpha", "acme", "acme/alpha", "first", ["go"], "", 3, "Go"⟩

def sampleServer : ScannerServer := ⟨"8080", "server-token", "http://sink/ingest"⟩

/-- The members `source_type`, `source_name` and `limit` of a request for org acme, limit 7. -/
def plainMembers : List (String × JsonValue) :=
  [("source_type", .str "org"), ("source_name", .str "acme"), ("limit", .int 7)]

/-- The request for user alice with limit 10. -/
def aliceMembers : List (String × JsonValue) :=
  [("source_type", .str "user"), ("source_name", .str "alice"), ("limit", .int 10)]

/-- A rate status with low quota whose reset lies about 373 years after the clock reading 0. -/
def farReset : Rate := ⟨5000, 50, 11775893412997043799⟩

/-! ## Lemmas on the dispatch loop and on traces -/

theorem dispatchRepos_eq (limit : Int) (repos : List Repository) :
    ∀ c : Int, dispatchRepos limit c repos =
      ((repos.take (limit - c).toNat).map Event.goProcessRepo,
        c + ((repos.take (limit - c).toNat).length : Int),
        decide ((limit - c).toNat < repos.length)) := by
  induction repos with
  | nil => intro c; simp [dispatchRepos]
  | cons r rest ih =>
    intro c
    by_cases h : c ≥ limit
    · have h0 : (limit - c).toNat = 0 := by omega
      simp [dispatchRepos, h, h0]
    · have h1 : (limit - c).toNat = (limit - (c + 1)).toNat + 1 := by omega
      simp only [dispatchRepos, h, if_false, ih (c + 1), h1, List.take_succ_cons, List.map_cons,
        List.length_cons]
      simp
      omega

theorem dispatched_append (a b : List Event) :
    dispatched (a ++ b) = dispatched a ++ dispatched b := by
  induction a with
  | nil => rfl
  | cons e a ih => cases e <;> simp [dispatched, ih]

theorem listedRepos_append (a b : List Event) :
    listedRepos (a ++ b) = listedRepos a ++ listedRepos b := by
  induction a with
  | nil => rfl
  | cons e a ih =>
    cases e with
    | listByOrg page resp => cases resp <;> simp [listedRepos, ih]
    | _ => simp [listedRepos, ih]

theorem listCalls_append (a b : List Event) :
    listCalls (a ++ b) = listCalls a ++ listCalls b := by
  induction a with
  | nil => rfl
  | cons e a ih => cases e <;> simp [listCalls, ih]

theorem listResponses_append (a b : List Event) :
    listResponses (a ++ b) = listResponses a ++ listResponses b := by
  induction a with
  | nil => rfl
  | cons e a ih => cases e <;> simp [listResponses, ih]

theorem dispatched_map_go (l : List Repository) :
    dispatched (l.map Event.goProcessRepo) = l := by
  induction l with
  | nil => rfl
  | cons r l ih => simp [dispatched, ih]

theorem listedRepos_map_go (l : List Repository) :
    listedRepos (l.map Event.goProcessRepo) = [] := by
  induction l with
  | nil => rfl
  | cons r l ih => simp [listedRepos, ih]

theorem listCalls_map_go (l : List Repository) :
    listCalls (l.map Event.goProcessRepo) = [] := by
  induction l with
  | nil => rfl
  | cons r l ih => simp [listCalls, ih]

theorem listResponses_map_go (l : List Repository) :
    listResponses (l.map Event.goProcessRepo) = [] := by
  induction l with
  | nil => rfl
  | cons r l ih => simp [listResponses, ih]

theorem dispatched_take_go (n : Nat) (l : List Repository) :
    dispatched (List.take n (List.map Event.goProcessRepo l)) = List.take n l := by
  rw [← List.map_take, dispatched_map_go]

theorem listedRepos_take_go (n : Nat) (l : List Repository) :
    listedRepos (List.take n (List.map Event.goProcessRepo l)) = [] := by
  rw [← List.map_take, listedRepos_map_go]

theorem listCalls_take_go (n : Nat) (l : List Repository) :
    listCalls (List.take n (List.map Event.goProcessRepo l)) = [] := by
  rw [← List.map_take, listCalls_map_go]

theorem listResponses_take_go (n : Nat) (l : List Repository) :
    listResponses (List.take n (List.map Event.goProcessRepo l)) = [] := by
  rw [← List.map_take, listResponses_map_go]

theorem checkRateLimit_reads (resp : Resp Rate) (now : Int) :
    dispatched (checkRateLimit resp now).1 = [] ∧
    listedRepos (checkRateLimit resp now).1 = [] ∧
    listCalls (checkRateLimit resp now).1 = [] ∧
    listResponses (checkRateLimit resp now).1 = [] := by
  cases resp with
  | err e => simp [checkRateLimit, dispatched, listedRepos, listCalls, listResponses]
  | ok core =>
    by_cases h : core.Remaining < RateLimitPad <;>
      simp [checkRateLimit, h, dispatched, listedRepos, listCalls, listResponses]

/-- The dispatched workers are the first `limit - repoCount` repositories of the pages listed,
on every script. -/
theorem scanLoop_dispatched (limit : Int) (lists : List (Resp Page)) :
    ∀ (rates : List (Resp Rate × Int)) (page c : Int),
      dispatched (scanLoop limit lists rates page c).trace =
        (listedRepos (scanLoop limit lists rates page c).trace).take (limit - c).toNat := by
  induction lists with
  | nil => intro rates page c; simp [scanLoop, dispatched, listedRepos]
  | cons l lists ih =>
    intro rates page c
    cases l with
    | err e => simp [scanLoop, dispatched, listedRepos]
    | ok pg =>
      simp only [scanLoop, dispatchRepos_eq]
      split
      · simp [dispatched, listedRepos, dispatched_take_go, listedRepos_take_go]
      · rename_i hhit
        have hlen : pg.repos.length ≤ (limit - c).toNat := by simpa using hhit
        split
        · simp [dispatched, listedRepos, dispatched_take_go, listedRepos_take_go]
        · cases rates with
          | nil => simp [dispatched, listedRepos, dispatched_take_go, listedRepos_take_go]
          | cons r rates =>
            obtain ⟨rate, now⟩ := r
            obtain ⟨h1, h2, -, -⟩ := checkRateLimit_reads rate now
            simp only []
            split
            · simp [dispatched, listedRepos, dispatched_append, listedRepos_append,
                dispatched_take_go, listedRepos_take_go, h1, h2]
            · have hc : (limit - (c + (pg.repos.length : Int))).toNat
                  = (limit - c).toNat - pg.repos.length := by omega
              simp [ScanRun.after, dispatched, listedRepos, dispatched_append,
                listedRepos_append, dispatched_take_go, listedRepos_take_go,
                dispatched_map_go, listedRepos_map_go, h1, h2, ih, hc,
                List.take_append_eq_append_take, List.take_of_length_le hlen]

theorem checkRateLimit_ok (core : Rate) (now : Int) :
    (checkRateLimit (.ok core) now).2 = none := by
  by_cases h : core.Remaining < RateLimitPad <;> simp [checkRateLimit, h]

/-- On a page sequence whose calls all succeed, `scanLoop` returns without error, dispatches the
first `limit - repoCount` repositories of the sequence, and, when the sequence holds no more
than that, requests every page. -/
theorem scanLoop_pages (limit : Int) (ps : List Page) :
    ∀ (rates : List (Resp Rate × Int)) (page c : Int),
      isPageSequence ps = true →
      (∀ x ∈ rates, ∃ core, x.1 = Resp.ok core) →
      ps.length ≤ rates.length + 1 →
      (scanLoop limit (ps.map Resp.ok) rates page c).outcome = .returned none ∧
      dispatched (scanLoop limit (ps.map Resp.ok) rates page c).trace =
        (allRepos ps).take (limit - c).toNat ∧
      ((allRepos ps).length ≤ (limit - c).toNat →
        listResponses (scanLoop limit (ps.map Resp.ok) rates page c).trace = ps.map Resp.ok ∧
        listCalls (scanLoop limit (ps.map Resp.ok) rates page c).trace =
          page :: ps.dropLast.map Page.NextPage) := by
  induction ps with
  | nil => intro rates page c h; simp [isPageSequence] at h
  | cons pg rest ih =>
    intro rates page c hseq hrates hlen
    simp only [List.map_cons, scanLoop, dispatchRepos_eq]
    split
    · rename_i hhit
      have hlt : (limit - c).toNat < pg.repos.length := by simpa using hhit
      refine ⟨rfl, ?_, ?_⟩
      · simp [dispatched, dispatched_take_go, allRepos,
          List.take_append_of_le_length (Nat.le_of_lt hlt)]
      · intro hall
        simp [allRepos] at hall
        omega
    · rename_i hhit
      have hle : pg.repos.length ≤ (limit - c).toNat := by simpa using hhit
      cases rest with
      | nil =>
        have hnext : pg.NextPage = 0 := by simpa [isPageSequence] using hseq
        simp [hnext, dispatched, dispatched_take_go, allRepos, listResponses, listCalls,
          listResponses_take_go, listCalls_take_go]
      | cons q qs =>
        have hseq2 : pg.NextPage ≠ 0 ∧ isPageSequence (q :: qs) = true := by
          simpa [isPageSequence] using hseq
        rw [if_neg hseq2.1]
        cases rates with
        | nil => simp at hlen
        | cons r rates =>
          obtain ⟨rate, now⟩ := r
          obtain ⟨core, hcore⟩ := hrates (rate, now) (by simp)
          simp only at hcore
          subst hcore
          obtain ⟨h1, -, h3, h4⟩ := checkRateLimit_reads (.ok core) now
          have hrates2 : ∀ x ∈ rates, ∃ core, x.1 = Resp.ok core :=
            fun x hx => hrates x (by simp [hx])
          have hlen2 : (q :: qs).length ≤ rates.length + 1 := by
            simp only [List.length_cons] at hlen ⊢; omega
          have hc : (limit - (c + (pg.repos.length : Int))).toNat
              = (limit - c).toNat - pg.repos.length := by omega
          obtain ⟨i1, i2, i3⟩ := ih rates pg.NextPage (c + (pg.repos.length : Int)) hseq2.2
            hrates2 hlen2
          simp only [checkRateLimit_ok, List.take_of_length_le hle, ScanRun.after]
          simp only [List.map_cons] at i1 i2 i3
          refine ⟨i1, ?_, ?_⟩
          · simp [dispatched, dispatched_append, dispatched_map_go, h1, i2, hc, allRepos,
              List.take_append_eq_append_take, List.take_of_length_le hle]
          · intro hall
            have hall2 : (allRepos (q :: qs)).length
                ≤ (limit - (c + (pg.repos.length : Int))).toNat := by
              simp [allRepos] at hall ⊢; omega
            obtain ⟨j1, j2⟩ := i3 hall2
            simp [listResponses, listCalls, listResponses_append, listCalls_append,
              listResponses_map_go, listCalls_map_go, h3, h4, j1, j2]

theorem go_not_failed (n : Nat) (l : List Repository) :
    ∀ x ∈ List.take n (List.map Event.goProcessRepo l), x.isFailedCall = false := by
  intro x hx
  have hx2 := List.mem_of_mem_take hx
  obtain ⟨r, -, rfl⟩ := List.mem_map.mp hx2
  rfl

theorem checkRateLimit_not_failed (core : Rate) (now : Int) :
    ∀ x ∈ (checkRateLimit (.ok core) now).1, x.isFailedCall = false := by
  intro x hx
  by_cases h : core.Remaining < RateLimitPad
  · simp [checkRateLimit, h] at hx
    rcases hx with rfl | rfl <;> rfl
  · simp [checkRateLimit, h] at hx
    subst hx; rfl

theorem listedRepos_of_responses (evs : List Event) :
    ∀ ps : List Page, listResponses evs = ps.map Resp.ok → listedRepos evs = allRepos ps := by
  induction evs with
  | nil =>
    intro ps h
    cases ps with
    | nil => rfl
    | cons p ps => simp [listResponses] at h
  | cons e evs ih =>
    intro ps h
    cases e with
    | listByOrg page resp =>
      cases ps with
      | nil => simp [listResponses] at h
      | cons p ps =>
        simp only [listResponses, List.map_cons, List.cons.injEq] at h
        obtain ⟨h1, h2⟩ := h
        subst h1
        simp [listedRepos, allRepos, ih ps h2]
    | _ => simpa [listedRepos, listResponses] using ih ps (by simpa [listResponses] using h)

/-- The answers recorded in the trace are the first answers of the script, in order. -/
theorem scanLoop_responses (limit : Int) (lists : List (Resp Page)) :
    ∀ (rates : List (Resp Rate × Int)) (page c : Int),
      listResponses (scanLoop limit lists rates page c).trace <+: lists := by
  induction lists with
  | nil => intro rates page c; simp [scanLoop, listResponses]
  | cons l lists ih =>
    intro rates page c
    cases l with
    | err e => simp [scanLoop, listResponses, List.prefix_cons_inj]
    | ok pg =>
      simp only [scanLoop, dispatchRepos_eq]
      split
      · simp [listResponses, listResponses_take_go, List.prefix_cons_inj]
      · split
        · simp [listResponses, listResponses_take_go, List.prefix_cons_inj]
        · cases rates with
          | nil => simp [listResponses, listResponses_take_go, List.prefix_cons_inj]
          | cons r rates =>
            obtain ⟨rate, now⟩ := r
            obtain ⟨-, -, -, h4⟩ := checkRateLimit_reads rate now
            simp only []
            split
            · simp [listResponses, listResponses_append, listResponses_take_go, h4,
                List.prefix_cons_inj]
            · simp [ScanRun.after, listResponses, listResponses_append, listResponses_take_go,
                h4, List.prefix_cons_inj, ih]

/-- A failed upstream call ends the run: it is the last event, every listing before it
succeeded, and the error returned is the one of that call. -/
theorem scanLoop_failure (limit : Int) (lists : List (Resp Page)) :
    ∀ (rates : List (Resp Rate × Int)) (page c : Int) (ev : Event),
      ev ∈ (scanLoop limit lists rates page c).trace → ev.isFailedCall = true →
      ∃ (pre : List Event) (ps : List Page),
        (scanLoop limit lists rates page c).trace = pre ++ [ev] ∧
        listResponses pre = ps.map Resp.ok ∧
        (∀ x ∈ pre, x.isFailedCall = false) ∧
        ((∃ pg e, ev = .listByOrg pg (.err e) ∧
            (scanLoop limit lists rates page c).outcome =
              .returned (some (.wrap "error listing repos: " e))) ∨
         (∃ e, ev = .rateLimits (.err e) ∧
            (scanLoop limit lists rates page c).outcome = .returned (some e))) := by
  induction lists with
  | nil => intro rates page c ev hmem; simp [scanLoop] at hmem
  | cons l lists ih =>
    intro rates page c ev
    cases l with
    | err e =>
      intro hmem _
      simp only [scanLoop, List.mem_singleton] at hmem
      subst hmem
      exact ⟨[], [], by simp [scanLoop], rfl, by simp, Or.inl ⟨page, e, rfl, by simp [scanLoop]⟩⟩
    | ok pg =>
      have hhead : ∀ x ∈ Event.listByOrg page (Resp.ok pg) ::
          List.take (limit - c).toNat (List.map Event.goProcessRepo pg.repos),
          x.isFailedCall = false := by
        intro x hx
        rcases List.mem_cons.mp hx with rfl | hx
        · rfl
        · exact go_not_failed _ _ x hx
      have hcontra : ∀ ev, ev ∈ Event.listByOrg page (Resp.ok pg) ::
          List.take (limit - c).toNat (List.map Event.goProcessRepo pg.repos) →
          ev.isFailedCall = true → False := by
        intro ev hmem hf
        rw [hhead ev hmem] at hf
        exact Bool.false_ne_true hf
      simp only [scanLoop, dispatchRepos_eq, List.map_take]
      split
      · intro hmem hf; exact (hcontra ev hmem hf).elim
      · split
        · intro hmem hf; exact (hcontra ev hmem hf).elim
        · cases rates with
          | nil => intro hmem hf; exact (hcontra ev hmem hf).elim
          | cons r rates =>
            obtain ⟨rate, now⟩ := r
            simp only []
            cases rate with
            | err e =>
              simp only [checkRateLimit]
              intro hmem hf
              have hev : ev = Event.rateLimits (Resp.err e) := by
                simp only [List.cons_append, List.mem_cons, List.mem_append,
                  List.mem_singleton, List.not_mem_nil, or_false] at hmem
                rcases hmem with h | h | h
                · exact (hcontra ev (by simp [h]) hf).elim
                · exact (hcontra ev (by simp [h]) hf).elim
                · exact h
              subst hev
              refine ⟨_, [pg], rfl, ?_, hhead, Or.inr ⟨e, rfl, rfl⟩⟩
              simp [listResponses, listResponses_take_go]
            | ok core =>
              simp only [checkRateLimit_ok, ScanRun.after]
              intro hmem hf
              have hrec : ev ∈ (scanLoop limit lists rates pg.NextPage
                  (c + ((List.take (limit - c).toNat pg.repos).length : Int))).trace := by
                rcases List.mem_append.mp hmem with h | h
                · rw [List.cons_append] at h
                  rcases List.mem_cons.mp h with h | h
                  · exact (hcontra ev (by simp [h]) hf).elim
                  · rcases List.mem_append.mp h with h | h
                    · exact (hcontra ev (List.mem_cons_of_mem _ h) hf).elim
                    · rw [checkRateLimit_not_failed core now ev h] at hf
                      exact (Bool.false_ne_true hf).elim
                · exact h
              obtain ⟨pre, ps, h1, h2, h3, h4⟩ := ih rates pg.NextPage _ ev hrec hf
              obtain ⟨-, -, -, r4⟩ := checkRateLimit_reads (.ok core) now
              refine ⟨(Event.listByOrg page (Resp.ok pg) ::
                  List.take (limit - c).toNat (List.map Event.goProcessRepo pg.repos) ++
                  (checkRateLimit (.ok core) now).1) ++ pre, pg :: ps, ?_, ?_, ?_, h4⟩
              · rw [h1]; simp
              · simp [listResponses, listResponses_append, listResponses_take_go, r4, h2]
              · intro x hx
                rcases List.mem_append.mp hx with h | h
                · rw [List.cons_append] at h
                  rcases List.mem_cons.mp h with h | h
                  · subst h; rfl
                  · rcases List.mem_append.mp h with h | h
                    · exact go_not_failed _ _ x h
                    · exact checkRateLimit_not_failed core now x h
                · exact h3 x h

/-! ## The item limit (C1, C2, C3) -/

/-- C1: for an item limit `N ≥ 0`, no run of `ScanOrg` dispatches more than `N` workers, on any
upstream script; and on a page sequence whose listing and rate-status calls all succeed and whose
pages together hold at least `N` repositories, `ScanOrg` returns and has dispatched exactly `N`
workers. -/
theorem ScanOrg_dispatches_limit (config : ScanConfig) (hN : 0 ≤ config.Limit) :
    (∀ up : Upstream,
      ((dispatched (ScanOrg config up).trace).length : Int) ≤ config.Limit) ∧
    (∀ (up : Upstream) (ps : List Page),
      up.lists = ps.map Resp.ok →
      isPageSequence ps = true →
      (∀ x ∈ up.rates, ∃ core, x.1 = Resp.ok core) →
      ps.length ≤ up.rates.length + 1 →
      config.Limit ≤ ((allRepos ps).length : Int) →
      (ScanOrg config up).outcome = .returned none ∧
      ((dispatched (ScanOrg config up).trace).length : Int) = config.Limit) := by
  constructor
  · intro up
    have h := scanLoop_dispatched config.Limit up.lists up.rates 0 0
    have hlen := congrArg List.length h
    rw [List.length_take] at hlen
    simp only [ScanOrg]
    omega
  · intro up ps hl hseq hrates hlen htotal
    obtain ⟨h1, h2, -⟩ := scanLoop_pages config.Limit ps up.rates 0 0 hseq hrates hlen
    simp only [ScanOrg, hl]
    refine ⟨h1, ?_⟩
    rw [h2, List.length_take]
    omega

theorem ScanOrg_dispatches_limit_witness :
    (0 : Int) ≤ (sampleConfig 1).Limit ∧
    ((dispatched (ScanOrg (sampleConfig 1) listFailsUpstream).trace).length : Int) ≤ 1 ∧
    (ScanOrg (sampleConfig 1) twoPageUpstream).outcome = .returned none ∧
    ((dispatched (ScanOrg (sampleConfig 1) twoPageUpstream).trace).length : Int) = 1 :=
  ⟨by decide,
   (ScanOrg_dispatches_limit (sampleConfig 1) (by decide)).1 listFailsUpstream,
   (ScanOrg_dispatches_limit (sampleConfig 1) (by decide)).2 twoPageUpstream twoPages rfl
     (by decide) (by simp [twoPageUpstream]) (by decide) (by decide)⟩

/-- C2: on a page sequence whose listing and rate-status calls all succeed and whose pages
together hold fewer repositories than the item limit, `ScanOrg` returns no error, dispatches one
worker per repository in upstream order, and requests every page: the first with page number 0,
each later one with the cursor of the page before it, up to the page without cursor. -/
theorem ScanOrg_small_source (config : ScanConfig) (up : Upstream) (ps : List Page)
    (hl : up.lists = ps.map Resp.ok)
    (hseq : isPageSequence ps = true)
    (hrates : ∀ x ∈ up.rates, ∃ core, x.1 = Resp.ok core)
    (hlen : ps.length ≤ up.rates.length + 1)
    (hM : ((allRepos ps).length : Int) < config.Limit) :
    (ScanOrg config up).outcome = .returned none ∧
    dispatched (ScanOrg config up).trace = allRepos ps ∧
    (dispatched (ScanOrg config up).trace).length = (allRepos ps).length ∧
    listResponses (ScanOrg config up).trace = ps.map Resp.ok ∧
    listCalls (ScanOrg config up).trace = 0 :: ps.dropLast.map Page.NextPage ∧
    (listCalls (ScanOrg config up).trace).length = ps.length := by
  obtain ⟨h1, h2, h3⟩ := scanLoop_pages config.Limit ps up.rates 0 0 hseq hrates hlen
  have hle : (allRepos ps).length ≤ (config.Limit - 0).toNat := by omega
  obtain ⟨h4, h5⟩ := h3 hle
  have hd : dispatched (ScanOrg config up).trace = allRepos ps := by
    simp only [ScanOrg, hl, h2]
    exact List.take_of_length_le hle
  have hne : ps ≠ [] := by
    intro h
    subst h
    simp [isPageSequence] at hseq
  refine ⟨by simpa only [ScanOrg, hl] using h1, hd, by rw [hd],
    by simpa only [ScanOrg, hl] using h4, by simpa only [ScanOrg, hl] using h5, ?_⟩
  simp only [ScanOrg, hl, h5, List.length_cons, List.length_map, List.length_dropLast]
  have : 0 < ps.length := List.length_pos.mpr hne
  omega

theorem ScanOrg_small_source_witness :
    (ScanOrg (sampleConfig 50) twoPageUpstream).outcome = .returned none ∧
    dispatched (ScanOrg (sampleConfig 50) twoPageUpstream).trace = [sampleRepoA, sampleRepoB] ∧
    (dispatched (ScanOrg (sampleConfig 50) twoPageUpstream).trace).length = 2 ∧
    listResponses (ScanOrg (sampleConfig 50) twoPageUpstream).trace = twoPages.map Resp.ok ∧
    listCalls (ScanOrg (sampleConfig 50) twoPageUpstream).trace = [0, 2] ∧
    (listCalls (ScanOrg (sampleConfig 50) twoPageUpstream).trace).length = 2 :=
  ScanOrg_small_source (sampleConfig 50) twoPageUpstream twoPages rfl (by decide)
    (by simp [twoPageUpstream]) (by decide) (by decide)

/-- C3: with limit 1 and a first page of one repository that carries the cursor 2, the limit is
reached on the last repository of the page, and `ScanOrg` still queries the rate status and
requests page 2 before it returns; when that rate-status query fails, the run that had already
reached its limit returns the error. -/
theorem ScanOrg_calls_after_limit :
    ScanOrg (sampleConfig 1) twoPageUpstream =
      ⟨[.listByOrg 0 (.ok ⟨[sampleRepoA], 2⟩), .goProcessRepo sampleRepoA,
        .rateLimits (.ok ⟨5000, 4000, 1000⟩), .listByOrg 2 (.ok ⟨[sampleRepoB], 0⟩)],
       .returned none⟩ ∧
    ScanOrg (sampleConfig 1) rateFailsUpstream =
      ⟨[.listByOrg 0 (.ok ⟨[sampleRepoA], 2⟩), .goProcessRepo sampleRepoA,
        .rateLimits (.err (.plain "rate: 503"))],
       .returned (some (.plain "rate: 503"))⟩ := by
  constructor <;> rfl

/-! ## Upstream failures (C9) -/

/-- C9: in every run of `ScanOrg` in which an upstream call fails, that call is the last event of
the run (no call and no dispatch follows it) and the first failing call; the listings before it,
the pages `ps`, are the first answers of the upstream and all succeeded; `ScanOrg` returns an
error, the listing error wrapped as "error listing repos: " or the rate-status error as it is;
the workers dispatched are the first `min(limit, total)` repositories of `ps`; and `Run` returns
that same error after `wg.Wait()` and closing both streams. -/
theorem ScanOrg_failure_aborts (config : ScanConfig) (up : Upstream) (ev : Event)
    (hmem : ev ∈ (ScanOrg config up).trace) (hfail : ev.isFailedCall = true) :
    ∃ (pre : List Event) (ps : List Page) (err : GoError),
      (ScanOrg config up).trace = pre ++ [ev] ∧
      (∀ x ∈ pre, x.isFailedCall = false) ∧
      listResponses pre = ps.map Resp.ok ∧
      listResponses (ScanOrg config up).trace <+: up.lists ∧
      (ScanOrg config up).outcome = .returned (some err) ∧
      ((∃ page e, ev = .listByOrg page (.err e) ∧ err = .wrap "error listing repos: " e) ∨
       (∃ e, ev = .rateLimits (.err e) ∧ err = e)) ∧
      dispatched (ScanOrg config up).trace =
        (allRepos ps).take (min config.Limit.toNat (allRepos ps).length) ∧
      (config.SourceType = "org" →
        Run config up =
          ⟨.goProcessResults :: (ScanOrg config up).trace ++
              [.wgWait, .closeResults, .closeErrors],
            .returned (some err)⟩) := by
  obtain ⟨pre, ps, h1, h2, h3, h4⟩ :=
    scanLoop_failure config.Limit up.lists up.rates 0 0 ev hmem hfail
  have hresp := scanLoop_responses config.Limit up.lists up.rates 0 0
  have hdisp := scanLoop_dispatched config.Limit up.lists up.rates 0 0
  have hlisted : listedRepos (scanLoop config.Limit up.lists up.rates 0 0).trace
      = allRepos ps := by
    rw [h1, listedRepos_append, listedRepos_of_responses pre ps h2]
    have : listedRepos [ev] = [] := by
      rcases h4 with ⟨pg, e, rfl, -⟩ | ⟨e, rfl, -⟩ <;> rfl
    rw [this, List.append_nil]
  have htake : dispatched (scanLoop config.Limit up.lists up.rates 0 0).trace
      = (allRepos ps).take (min config.Limit.toNat (allRepos ps).length) := by
    rw [hdisp, hlisted]
    simp only [sub_zero]
    rcases Nat.le_total config.Limit.toNat (allRepos ps).length with h | h
    · rw [Nat.min_eq_left h]
    · rw [Nat.min_eq_right h, List.take_of_length_le h, List.take_of_length_le (le_refl _)]
  have hrun : ∀ err, (scanLoop config.Limit up.lists up.rates 0 0).outcome
      = .returned (some err) → config.SourceType = "org" →
      Run config up = ⟨.goProcessResults :: (ScanOrg config up).trace ++
          [.wgWait, .closeResults, .closeErrors], .returned (some err)⟩ := by
    intro err ho horg
    simp only [Run, horg, if_true, ScanOrg, ho]
  rcases h4 with ⟨pg, e, hev, ho⟩ | ⟨e, hev, ho⟩
  · exact ⟨pre, ps, .wrap "error listing repos: " e, h1, h3, h2, hresp, ho,
      Or.inl ⟨pg, e, hev, rfl⟩, htake, hrun _ ho⟩
  · exact ⟨pre, ps, e, h1, h3, h2, hresp, ho, Or.inr ⟨e, hev, rfl⟩, htake, hrun _ ho⟩

theorem ScanOrg_failure_aborts_witness :
    ∃ (pre : List Event) (ps : List Page) (err : GoError),
      (ScanOrg (sampleConfig 50) listFailsUpstream).trace =
        pre ++ [.listByOrg 2 (.err (.plain "list: 401"))] ∧
      (∀ x ∈ pre, x.isFailedCall = false) ∧
      listResponses pre = ps.map Resp.ok ∧
      listResponses (ScanOrg (sampleConfig 50) listFailsUpstream).trace
        <+: listFailsUpstream.lists ∧
      (ScanOrg (sampleConfig 50) listFailsUpstream).outcome = .returned (some err) ∧
      ((∃ page e, Event.listByOrg 2 (.err (.plain "list: 401")) = .listByOrg page (.err e) ∧
          err = .wrap "error listing repos: " e) ∨
       (∃ e, Event.listByOrg 2 (.err (.plain "list: 401")) = .rateLimits (.err e) ∧ err = e)) ∧
      dispatched (ScanOrg (sampleConfig 50) listFailsUpstream).trace =
        (allRepos ps).take (min (sampleConfig 50).Limit.toNat (allRepos ps).length) ∧
      ((sampleConfig 50).SourceType = "org" →
        Run (sampleConfig 50) listFailsUpstream =
          ⟨.goProcessResults :: (ScanOrg (sampleConfig 50) listFailsUpstream).trace ++
              [.wgWait, .closeResults, .closeErrors],
            .returned (some err)⟩) :=
  ScanOrg_failure_aborts (sampleConfig 50) listFailsUpstream
    (.listByOrg 2 (.err (.plain "list: 401"))) (by decide) rfl

/-- A scripted failure that the run never reaches is no failing call of the run: with limit 1
and a first page of two repositories, `ScanOrg` returns nil on the second repository and the
failing listing of page 2 is never requested. -/
theorem ScanOrg_limit_before_failure :
    ScanOrg (sampleConfig 1)
        ⟨[.ok ⟨[sampleRepoA, sampleRepoB], 2⟩, .err (.plain "list: 401")], []⟩ =
      ⟨[.listByOrg 0 (.ok ⟨[sampleRepoA, sampleRepoB], 2⟩), .goProcessRepo sampleRepoA],
       .returned none⟩ := by
  rfl

/-! ## The Rate Governor (C4) -/

/-- C4, counterexample: with `remaining = 50` and a reset time about 373 years after the clock
reading, the duration handed to `time.Sleep` is `maxDuration`, not `reset - now`, and the pause
it guarantees ends before the reset time. -/
theorem checkRateLimit_saturates :
    checkRateLimit (.ok farReset) 0 =
      ([.rateLimits (.ok farReset), .sleep 9223372036854775807], none) ∧
    (9223372036854775807 : Int) ≠ farReset.Reset - 0 ∧
    0 + sleepPause 9223372036854775807 < farReset.Reset := by
  refine ⟨?_, ?_, ?_⟩ <;> decide

/-- C4, amended: on a successful rate-status query `checkRateLimit` returns no error and calls
`time.Sleep` if and only if `remaining < 100`; the duration it asks for is `time.Until(reset)`,
which is `reset - now` whenever that difference fits a `Duration` (then the caller resumes no
earlier than the reset time); a reset time in the past gives no pause; with `remaining ≥ 100`
it does not sleep.  In a scan, with `remaining = 50` that sleep stands between the rate-status
query and the next listing request, and with `remaining = 200` nothing stands between them. -/
theorem checkRateLimit_suspends (core : Rate) (now : Int) :
    (checkRateLimit (.ok core) now).2 = none ∧
    (sleeps (checkRateLimit (.ok core) now).1 ≠ [] ↔ core.Remaining < 100) ∧
    (core.Remaining < 100 →
      (checkRateLimit (.ok core) now).1 =
        [.rateLimits (.ok core), .sleep (timeUntil core.Reset now)] ∧
      (core.Reset ≤ now → sleepPause (timeUntil core.Reset now) = 0)) ∧
    (core.Remaining < 100 → minDuration ≤ core.Reset - now → core.Reset - now ≤ maxDuration →
      (checkRateLimit (.ok core) now).1 =
        [.rateLimits (.ok core), .sleep (core.Reset - now)] ∧
      core.Reset ≤ now + sleepPause (core.Reset - now)) ∧
    (100 ≤ core.Remaining →
      (checkRateLimit (.ok core) now).1 = [.rateLimits (.ok core)]) ∧
    (core.Remaining = 50 → minDuration ≤ core.Reset - now → core.Reset - now ≤ maxDuration →
      (ScanOrg (sampleConfig 50) ⟨twoPages.map Resp.ok, [(.ok core, now)]⟩).trace =
        [.listByOrg 0 (.ok ⟨[sampleRepoA], 2⟩), .goProcessRepo sampleRepoA,
         .rateLimits (.ok core), .sleep (core.Reset - now),
         .listByOrg 2 (.ok ⟨[sampleRepoB], 0⟩), .goProcessRepo sampleRepoB]) ∧
    (core.Remaining = 200 →
      (ScanOrg (sampleConfig 50) ⟨twoPages.map Resp.ok, [(.ok core, now)]⟩).trace =
        [.listByOrg 0 (.ok ⟨[sampleRepoA], 2⟩), .goProcessRepo sampleRepoA,
         .rateLimits (.ok core),
         .listByOrg 2 (.ok ⟨[sampleRepoB], 0⟩), .goProcessRepo sampleRepoB]) := by
  have hfit : minDuration ≤ core.Reset - now → core.Reset - now ≤ maxDuration →
      timeUntil core.Reset now = core.Reset - now := by
    intro h1 h2
    have h3 : ¬ core.Reset - now > maxDuration := by omega
    have h4 : ¬ core.Reset - now < minDuration := by omega
    simp only [timeUntil, h3, h4, if_false]
  refine ⟨checkRateLimit_ok core now, ?_, ?_, ?_, ?_, ?_, ?_⟩
  · by_cases h : core.Remaining < 100 <;>
      simp [checkRateLimit, RateLimitPad, h, sleeps]
  · intro h
    refine ⟨by simp [checkRateLimit, RateLimitPad, h], ?_⟩
    intro hpast
    simp only [sleepPause, timeUntil, maxDuration, minDuration]
    split_ifs <;> omega
  · intro h h1 h2
    refine ⟨by simp [checkRateLimit, RateLimitPad, h, hfit h1 h2], ?_⟩
    simp only [sleepPause]; omega
  · intro h
    have h2 : ¬ core.Remaining < 100 := by omega
    simp [checkRateLimit, RateLimitPad, h2]
  · intro h h1 h2
    simp [ScanOrg, scanLoop, twoPages, dispatchRepos, sampleConfig, checkRateLimit,
      RateLimitPad, h, ScanRun.after, hfit h1 h2]
  · intro h
    simp [ScanOrg, scanLoop, twoPages, dispatchRepos, sampleConfig, checkRateLimit,
      RateLimitPad, h, ScanRun.after]

theorem checkRateLimit_suspends_witness :
    ((checkRateLimit (.ok ⟨5000, 50, 1000⟩) 400).1 =
        [.rateLimits (.ok ⟨5000, 50, 1000⟩), .sleep (1000 - 400)] ∧
      (1000 : Int) ≤ 400 + sleepPause (1000 - 400)) ∧
    (checkRateLimit (.ok ⟨5000, 200, 1000⟩) 400).1 = [.rateLimits (.ok ⟨5000, 200, 1000⟩)] ∧
    sleepPause (timeUntil 1000 2000) = 0 ∧
    (ScanOrg (sampleConfig 50) ⟨twoPages.map Resp.ok, [(.ok ⟨5000, 50, 1000⟩, 400)]⟩).trace =
      [.listByOrg 0 (.ok ⟨[sampleRepoA], 2⟩), .goProcessRepo sampleRepoA,
       .rateLimits (.ok ⟨5000, 50, 1000⟩), .sleep (1000 - 400),
       .listByOrg 2 (.ok ⟨[sampleRepoB], 0⟩), .goProcessRepo sampleRepoB] ∧
    (ScanOrg (sampleConfig 50) ⟨twoPages.map Resp.ok, [(.ok ⟨5000, 200, 1000⟩, 400)]⟩).trace =
      [.listByOrg 0 (.ok ⟨[sampleRepoA], 2⟩), .goProcessRepo sampleRepoA,
       .rateLimits (.ok ⟨5000, 200, 1000⟩),
       .listByOrg 2 (.ok ⟨[sampleRepoB], 0⟩), .goProcessRepo sampleRepoB] :=
  ⟨(checkRateLimit_suspends ⟨5000, 50, 1000⟩ 400).2.2.2.1 (by decide) (by decide) (by decide),
   (checkRateLimit_suspends ⟨5000, 200, 1000⟩ 400).2.2.2.2.1 (by decide),
   ((checkRateLimit_suspends ⟨5000, 50, 1000⟩ 2000).2.2.1 (by decide)).2 (by decide),
   (checkRateLimit_suspends ⟨5000, 50, 1000⟩ 400).2.2.2.2.2.1 rfl (by decide) (by decide),
   (checkRateLimit_suspends ⟨5000, 200, 1000⟩ 400).2.2.2.2.2.2 rfl⟩

/-! ## Decoding the request body -/

theorem decodeMember_skips (req : ScanRequest) (key : String) (v : JsonValue)
    (h : fieldFor key = none) : decodeMember req key v = some req := by
  simp [decodeMember, h]

/-- Members whose key names no field leave the decoding as it is. -/
theorem decodeMembers_filter (members : List (String × JsonValue)) :
    ∀ req : ScanRequest,
      decodeMembers (members.filter (fun m => (fieldFor m.1).isSome)) req =
        decodeMembers members req := by
  induction members with
  | nil => intro req; rfl
  | cons m rest ih =>
    intro req
    obtain ⟨key, v⟩ := m
    cases hk : fieldFor key with
    | none =>
      simp only [List.filter, hk, Option.isSome_none, decodeMembers,
        decodeMember_skips req key v hk]
      exact ih req
    | some f =>
      simp only [List.filter, hk, Option.isSome_some, decodeMembers]
      cases decodeMember req key v with
      | none => rfl
      | some next => exact ih next

theorem decodeMembers_append_skips (members others : List (String × JsonValue))
    (h : ∀ m ∈ others, fieldFor m.1 = none) (req : ScanRequest) :
    decodeMembers (members ++ others) req = decodeMembers members req := by
  rw [← decodeMembers_filter (members ++ others), ← decodeMembers_filter members,
    List.filter_append]
  have : others.filter (fun m => (fieldFor m.1).isSome) = [] := by
    rw [List.filter_eq_nil_iff]
    intro m hm
    simp [h m hm]
  rw [this, List.append_nil]

/-- Without a member whose key names the field `Limit`, decoding leaves the limit as it was. -/
theorem decodeMembers_keeps_limit (members : List (String × JsonValue)) :
    ∀ req out : ScanRequest,
      (∀ m ∈ members, fieldFor m.1 ≠ some .Limit) →
      decodeMembers members req = some out → out.Limit = req.Limit := by
  induction members with
  | nil =>
    intro req out _ h
    simp only [decodeMembers, Option.some.injEq] at h
    rw [h]
  | cons m rest ih =>
    intro req out hno h
    obtain ⟨key, v⟩ := m
    have hkey : fieldFor key ≠ some .Limit := hno (key, v) (by simp)
    have hrest : ∀ m ∈ rest, fieldFor m.1 ≠ some .Limit :=
      fun m hm => hno m (List.mem_cons_of_mem _ hm)
    simp only [decodeMembers] at h
    cases hd : decodeMember req key v with
    | none => rw [hd] at h; cases h
    | some next =>
      rw [hd] at h
      have hlim : next.Limit = req.Limit := by
        unfold decodeMember at hd
        cases hf : fieldFor key with
        | none => simp [hf] at hd; rw [← hd]
        | some f =>
          cases f with
          | Limit => exact absurd hf hkey
          | SourceType => cases v <;> simp [hf] at hd <;> rw [← hd]
          | SourceName => cases v <;> simp [hf] at hd <;> rw [← hd]
      rw [ih next out hrest h, hlim]

/-- What `handleScan` does with a POST is fixed by what its body decodes to. -/
theorem handleScan_of_decode (s : ScannerServer) (a b : RequestBody)
    (h : decodeBody a = decodeBody b) :
    handleScan s ⟨"POST", a⟩ = handleScan s ⟨"POST", b⟩ := by
  simp only [handleScan, h]

/-- The outcome of `handleScan` on a POST whose body decodes to a request with both names. -/
theorem handleScan_accepts (s : ScannerServer) (body : RequestBody) (req : ScanRequest)
    (hdec : decodeBody body = some req) (hst : req.SourceType ≠ "") (hsn : req.SourceName ≠ "") :
    handleScan s ⟨"POST", body⟩ =
      ⟨202,
       .json ⟨"started", "Scan initiated for " ++ req.SourceType ++ ": " ++ req.SourceName, 0⟩,
       [⟨req.SourceType, req.SourceName, if req.Limit = 0 then 50 else req.Limit, s.token,
          s.mcpEndpoint⟩]⟩ := by
  by_cases h0 : req.Limit = 0 <;> simp [handleScan, hdec, hst, hsn, h0]

/-! ## Messages of errors -/

theorem listing_message_head (inner : GoError) :
    (GoError.wrap "error listing repos: " inner).Error.data.head? = some 'e' := by
  simp only [GoError.Error, String.data_append]
  rfl

theorem unknown_message_head (t : String) :
    ("unknown source type: " ++ t).data.head? = some 'u' := by
  simp only [String.data_append]
  rfl

/-! ## Unsupported source kinds (C6) -/

/-- C6: for every configuration whose source type is not "org", `Run` starts the result
processor, waits and closes both streams without any listing request or dispatch, and returns an
error: "user scanning not yet implemented", "topic scanning not yet implemented" or
"unknown source type: " followed by the source type.  That error wraps nothing and its message
differs from the message of every listing failure `ScanOrg` returns (which starts with
"error listing repos: ").  A POST /scan for user alice with limit 10, with or without further
members whose keys name no field of the request, is answered 202 and launches such a run. -/
theorem Run_unsupported_source (config : ScanConfig) (up : Upstream)
    (h : config.SourceType ≠ "org") :
    ∃ err : GoError,
      Run config up =
        ⟨[.goProcessResults, .wgWait, .closeResults, .closeErrors], .returned (some err)⟩ ∧
      listCalls (Run config up).trace = [] ∧
      dispatched (Run config up).trace = [] ∧
      (config.SourceType = "user" → err = .plain "user scanning not yet implemented") ∧
      (config.SourceType = "topic" → err = .plain "topic scanning not yet implemented") ∧
      (config.SourceType ≠ "user" → config.SourceType ≠ "topic" →
        err = .plain ("unknown source type: " ++ config.SourceType)) ∧
      err.Unwrap = none ∧
      (∀ inner : GoError,
        err.Error ≠ (GoError.wrap "error listing repos: " inner).Error ∧
        err ≠ GoError.wrap "error listing repos: " inner) ∧
      (∀ (s : ScannerServer) (others : List (String × JsonValue)),
        (∀ m ∈ others, fieldFor m.1 = none) →
        (handleScan s ⟨"POST", .object ([("source_type", .str "user"),
          ("source_name", .str "alice"), ("limit", .int 10)] ++ others)⟩).status = 202 ∧
        (handleScan s ⟨"POST", .object ([("source_type", .str "user"),
          ("source_name", .str "alice"), ("limit", .int 10)] ++ others)⟩).launched =
          [⟨"user", "alice", 10, s.token, s.mcpEndpoint⟩]) := by
  have hserver : ∀ (s : ScannerServer) (others : List (String × JsonValue)),
      (∀ m ∈ others, fieldFor m.1 = none) →
      (handleScan s ⟨"POST", .object ([("source_type", .str "user"),
        ("source_name", .str "alice"), ("limit", .int 10)] ++ others)⟩).status = 202 ∧
      (handleScan s ⟨"POST", .object ([("source_type", .str "user"),
        ("source_name", .str "alice"), ("limit", .int 10)] ++ others)⟩).launched =
        [⟨"user", "alice", 10, s.token, s.mcpEndpoint⟩] := by
    intro s others hothers
    have hdec : decodeBody (.object ([("source_type", .str "user"),
        ("source_name", .str "alice"), ("limit", .int 10)] ++ others)) =
        some ⟨"user", "alice", 10⟩ := by
      simp only [decodeBody]
      rw [decodeMembers_append_skips _ others hothers]
      rfl
    rw [handleScan_accepts s _ _ hdec (by decide) (by decide)]
    exact ⟨rfl, rfl⟩
  have hmsg : ∀ (err : GoError), err.Error.data.head? ≠ some 'e' → ∀ inner : GoError,
      err.Error ≠ (GoError.wrap "error listing repos: " inner).Error ∧
      err ≠ GoError.wrap "error listing repos: " inner := by
    intro err hhead inner
    have h1 : err.Error ≠ (GoError.wrap "error listing repos: " inner).Error := by
      intro heq
      rw [heq, listing_message_head] at hhead
      exact hhead rfl
    exact ⟨h1, fun heq => h1 (by rw [heq])⟩
  by_cases hu : config.SourceType = "user"
  · refine ⟨.plain "user scanning not yet implemented", ?_, ?_, ?_, fun _ => rfl, ?_, ?_, rfl,
      hmsg _ (by decide), hserver⟩
    · simp [Run, hu]
    · simp [Run, hu, listCalls]
    · simp [Run, hu, dispatched]
    · intro ht; rw [hu] at ht; exact absurd ht (by decide)
    · intro hnu; exact absurd hu hnu
  · by_cases ht : config.SourceType = "topic"
    · refine ⟨.plain "topic scanning not yet implemented", ?_, ?_, ?_, ?_, fun _ => rfl, ?_,
        rfl, hmsg _ (by decide), hserver⟩
      · simp [Run, ht]
      · simp [Run, ht, listCalls]
      · simp [Run, ht, dispatched]
      · intro hu2; exact absurd hu2 hu
      · intro _ hnt; exact absurd ht hnt
    · refine ⟨.plain ("unknown source type: " ++ config.SourceType), ?_, ?_, ?_, ?_, ?_,
        fun _ _ => rfl, rfl, hmsg _ ?_, hserver⟩
      · simp [Run, h, hu, ht]
      · simp [Run, h, hu, ht, listCalls]
      · simp [Run, h, hu, ht, dispatched]
      · intro hu2; exact absurd hu2 hu
      · intro ht2; exact absurd ht2 ht
      · simp only [GoError.Error]
        rw [unknown_message_head]
        decide

theorem Run_unsupported_source_witness :
    ∃ err : GoError,
      Run ⟨"user", "alice", 10, "", ""⟩ twoPageUpstream =
        ⟨[.goProcessResults, .wgWait, .closeResults, .closeErrors], .returned (some err)⟩ ∧
      listCalls (Run ⟨"user", "alice", 10, "", ""⟩ twoPageUpstream).trace = [] ∧
      dispatched (Run ⟨"user", "alice", 10, "", ""⟩ twoPageUpstream).trace = [] ∧
      ((⟨"user", "alice", 10, "", ""⟩ : ScanConfig).SourceType = "user" →
        err = .plain "user scanning not yet implemented") ∧
      ((⟨"user", "alice", 10, "", ""⟩ : ScanConfig).SourceType = "topic" →
        err = .plain "topic scanning not yet implemented") ∧
      ((⟨"user", "alice", 10, "", ""⟩ : ScanConfig).SourceType ≠ "user" →
        (⟨"user", "alice", 10, "", ""⟩ : ScanConfig).SourceType ≠ "topic" →
        err = .plain ("unknown source type: " ++
          (⟨"user", "alice", 10, "", ""⟩ : ScanConfig).SourceType)) ∧
      err.Unwrap = none ∧
      (∀ inner : GoError,
        err.Error ≠ (GoError.wrap "error listing repos: " inner).Error ∧
        err ≠ GoError.wrap "error listing repos: " inner) ∧
      (∀ (s : ScannerServer) (others : List (String × JsonValue)),
        (∀ m ∈ others, fieldFor m.1 = none) →
        (handleScan s ⟨"POST", .object ([("source_type", .str "user"),
          ("source_name", .str "alice"), ("limit", .int 10)] ++ others)⟩).status = 202 ∧
        (handleScan s ⟨"POST", .object ([("source_type", .str "user"),
          ("source_name", .str "alice"), ("limit", .int 10)] ++ others)⟩).launched =
          [⟨"user", "alice", 10, s.token, s.mcpEndpoint⟩]) :=
  Run_unsupported_source ⟨"user", "alice", 10, "", ""⟩ twoPageUpstream (by decide)

/-! ## The Scan Trigger Service (C5, C8) -/

/-- C5: a POST whose body decodes to a request is answered 400 without launching a scan exactly
when the source type or the source name of that request is empty; otherwise it is answered 202
with status "started" and scanned 0 and launches exactly one scan, with limit 50 when the limit
of the request is zero (in particular when the body carries no member for it) and with the limit
of the request otherwise.  A body that does not decode is answered 400 and a method other than
POST 405, and nothing is launched. -/
theorem handleScan_validates (s : ScannerServer) (body : RequestBody) :
    (∀ req : ScanRequest, decodeBody body = some req →
      (((handleScan s ⟨"POST", body⟩).status = 400 ∧
          (handleScan s ⟨"POST", body⟩).launched = []) ↔
        (req.SourceType = "" ∨ req.SourceName = "")) ∧
      (¬ (req.SourceType = "" ∨ req.SourceName = "") →
        (handleScan s ⟨"POST", body⟩).status = 202 ∧
        (handleScan s ⟨"POST", body⟩).body =
          .json ⟨"started",
            "Scan initiated for " ++ req.SourceType ++ ": " ++ req.SourceName, 0⟩ ∧
        ∃ config : ScanConfig,
          (handleScan s ⟨"POST", body⟩).launched = [config] ∧
          config.SourceType = req.SourceType ∧
          config.SourceName = req.SourceName ∧
          (req.Limit = 0 → config.Limit = 50) ∧
          (req.Limit ≠ 0 → config.Limit = req.Limit) ∧
          (∀ members : List (String × JsonValue), body = .object members →
            (∀ m ∈ members, fieldFor m.1 ≠ some .Limit) → config.Limit = 50))) ∧
    (decodeBody body = none →
      (handleScan s ⟨"POST", body⟩).status = 400 ∧
      (handleScan s ⟨"POST", body⟩).launched = []) ∧
    (∀ method : String, method ≠ "POST" →
      (handleScan s ⟨method, body⟩).status = 405 ∧
      (handleScan s ⟨method, body⟩).launched = []) := by
  refine ⟨?_, ?_, ?_⟩
  · intro req hdec
    constructor
    · by_cases h : req.SourceType = "" ∨ req.SourceName = ""
      · simp [handleScan, hdec, h]
      · simp [handleScan, hdec, h]
    · intro h
      have hst : req.SourceType ≠ "" := fun e => h (Or.inl e)
      have hsn : req.SourceName ≠ "" := fun e => h (Or.inr e)
      rw [handleScan_accepts s body req hdec hst hsn]
      refine ⟨rfl, rfl, _, rfl, rfl, rfl, ?_, ?_, ?_⟩
      · intro h0; simp [h0]
      · intro h0; simp [h0]
      · intro members hbody hno
        subst hbody
        have hl : req.Limit = 0 :=
          decodeMembers_keeps_limit members ⟨"", "", 0⟩ req hno hdec
        simp [hl]
  · intro hdec
    simp [handleScan, hdec]
  · intro method hm
    simp [handleScan, hm]

theorem handleScan_validates_witness :
    ((handleScan sampleServer ⟨"POST", .object [("source_type", .str "org"),
        ("source_name", .str "acme")]⟩).status = 202 ∧
      (handleScan sampleServer ⟨"POST", .object [("source_type", .str "org"),
        ("source_name", .str "acme")]⟩).body =
        .json ⟨"started", "Scan initiated for " ++ "org" ++ ": " ++ "acme", 0⟩ ∧
      ∃ config : ScanConfig,
        (handleScan sampleServer ⟨"POST", .object [("source_type", .str "org"),
          ("source_name", .str "acme")]⟩).launched = [config] ∧
        config.SourceType = "org" ∧
        config.SourceName = "acme" ∧
        ((0 : Int) = 0 → config.Limit = 50) ∧
        ((0 : Int) ≠ 0 → config.Limit = 0) ∧
        (∀ members : List (String × JsonValue),
          RequestBody.object [("source_type", .str "org"), ("source_name", .str "acme")] =
            .object members →
          (∀ m ∈ members, fieldFor m.1 ≠ some .Limit) → config.Limit = 50)) ∧
    ((handleScan sampleServer ⟨"POST", .object [("source_type", .str ""),
        ("source_name", .str "acme")]⟩).status = 400 ∧
      (handleScan sampleServer ⟨"POST", .object [("source_type", .str ""),
        ("source_name", .str "acme")]⟩).launched = []) ∧
    ((handleScan sampleServer ⟨"POST", .malformed⟩).status = 400 ∧
      (handleScan sampleServer ⟨"POST", .malformed⟩).launched = []) ∧
    ((handleScan sampleServer ⟨"GET", .malformed⟩).status = 405 ∧
      (handleScan sampleServer ⟨"GET", .malformed⟩).launched = []) :=
  ⟨((handleScan_validates sampleServer (.object [("source_type", .str "org"),
      ("source_name", .str "acme")])).1 ⟨"org", "acme", 0⟩ rfl).2 (by decide),
   ((handleScan_validates sampleServer (.object [("source_type", .str ""),
      ("source_name", .str "acme")])).1 ⟨"", "acme", 0⟩ rfl).1.mpr (Or.inl rfl),
   (handleScan_validates sampleServer .malformed).2.1 rfl,
   (handleScan_validates sampleServer .malformed).2.2 "GET" (by decide)⟩

/-- Keys are matched to the fields without regard to case: a body with only `SOURCE_TYPE` and
`SOURCE_NAME` is accepted with the default limit, a lone `LIMIT` sets the limit, and a member
of the wrong type fails the decode. -/
theorem handleScan_folded_keys :
    handleScan sampleServer ⟨"POST", .object [("SOURCE_TYPE", .str "org"),
        ("SOURCE_NAME", .str "acme")]⟩ =
      ⟨202, .json ⟨"started", "Scan initiated for org: acme", 0⟩,
        [⟨"org", "acme", 50, "server-token", "http://sink/ingest"⟩]⟩ ∧
    (handleScan sampleServer ⟨"POST", .object [("source_type", .str "org"),
        ("source_name", .str "acme"), ("LIMIT", .int 3)]⟩).launched =
      [⟨"org", "acme", 3, "server-token", "http://sink/ingest"⟩] ∧
    handleScan sampleServer ⟨"POST", .object [("source_type", .str "org"),
        ("source_name", .str "acme"), ("limit", .str "7")]⟩ = ⟨400, .invalidRequest, []⟩ := by
  refine ⟨?_, ?_, ?_⟩ <;> decide

/-- C8, counterexample: two request bodies that carry the same members `source_type`,
`source_name` and `limit`, and differ only in further members with the keys `Source_Name` and
`LIMIT`, launch scans with different configurations: the keys are matched to the fields of the
request without regard to case and the later member wins. -/
theorem handleScan_folded_key_overrides :
    (plainMembers ++ [("Source_Name", JsonValue.str "evil"), ("LIMIT", .int 3)]).filter
        (fun m => decide (m.1 ∈ ["source_type", "source_name", "limit"])) =
      plainMembers.filter (fun m => decide (m.1 ∈ ["source_type", "source_name", "limit"])) ∧
    (handleScan sampleServer ⟨"POST", .object plainMembers⟩).launched =
      [⟨"org", "acme", 7, "server-token", "http://sink/ingest"⟩] ∧
    (handleScan sampleServer ⟨"POST", .object
        (plainMembers ++ [("Source_Name", .str "evil"), ("LIMIT", .int 3)])⟩).launched =
      [⟨"org", "evil", 3, "server-token", "http://sink/ingest"⟩] ∧
    (handleScan sampleServer ⟨"POST", .object plainMembers⟩).launched ≠
      (handleScan sampleServer ⟨"POST", .object
        (plainMembers ++ [("Source_Name", .str "evil"), ("LIMIT", .int 3)])⟩).launched := by
  refine ⟨?_, ?_, ?_, ?_⟩ <;> decide

/-- C8, amended: every accepted start-scan request launches a scan whose configuration carries
the token and the sink endpoint stored in the server, whatever members the body carries, and the
source type and source name of the decoded request; two request bodies that differ only in
members whose keys name no field of the request under the case-insensitive matching of
`encoding/json` (such as `token` or `mcp_endpoint`) are handled alike. -/
theorem handleScan_injects_credentials (s : ScannerServer) (body : RequestBody)
    (req : ScanRequest) (hdec : decodeBody body = some req)
    (hst : req.SourceType ≠ "") (hsn : req.SourceName ≠ "") :
    (∃ config : ScanConfig,
      (handleScan s ⟨"POST", body⟩).launched = [config] ∧
      config.Token = s.token ∧
      config.MCPEndpoint = s.mcpEndpoint ∧
      config.SourceType = req.SourceType ∧
      config.SourceName = req.SourceName) ∧
    (∀ a b : List (String × JsonValue),
      a.filter (fun m => (fieldFor m.1).isSome) = b.filter (fun m => (fieldFor m.1).isSome) →
      handleScan s ⟨"POST", .object a⟩ = handleScan s ⟨"POST", .object b⟩) ∧
    fieldFor "token" = none ∧ fieldFor "mcp_endpoint" = none := by
  refine ⟨?_, ?_, by decide, by decide⟩
  · rw [handleScan_accepts s body req hdec hst hsn]
    exact ⟨_, rfl, rfl, rfl, rfl, rfl⟩
  · intro a b hab
    apply handleScan_of_decode
    simp only [decodeBody]
    rw [← decodeMembers_filter a, ← decodeMembers_filter b, hab]

theorem handleScan_injects_credentials_witness :
    (∃ config : ScanConfig,
      (handleScan sampleServer ⟨"POST", .object (plainMembers ++
        [("token", .str "intruder"), ("mcp_endpoint", .str "http://elsewhere")])⟩).launched
        = [config] ∧
      config.Token = "server-token" ∧
      config.MCPEndpoint = "http://sink/ingest" ∧
      config.SourceType = "org" ∧
      config.SourceName = "acme") ∧
    handleScan sampleServer ⟨"POST", .object (plainMembers ++
        [("token", .str "intruder"), ("mcp_endpoint", .str "http://elsewhere")])⟩ =
      handleScan sampleServer ⟨"POST", .object plainMembers⟩ :=
  ⟨(handleScan_injects_credentials sampleServer (.object (plainMembers ++
      [("token", .str "intruder"), ("mcp_endpoint", .str "http://elsewhere")]))
      ⟨"org", "acme", 7⟩ (by decide) (by decide) (by decide)).1,
   (handleScan_injects_credentials sampleServer (.object plainMembers)
      ⟨"org", "acme", 7⟩ (by decide) (by decide) (by decide)).2.1 _ _ (by decide)⟩

/-! ## The Repository Worker (C7) -/

/-- When the README is fetched, or the fetch fails on a repository whose `FullName` is set,
`processRepo` publishes exactly one record, built from the metadata of the repository and the
README (empty after a failed fetch), publishes at most one error, and ends with `wg.Done`. -/
theorem processRepo_publishes_once (config : ScanConfig) (marshal : RepoData → Resp String)
    (getReadme : Resp RepositoryContent) (repo : Repository)
    (h : (fetchREADME getReadme).2 = none ∨ repo.FullName ≠ none) :
    publishedResults (processRepo config marshal getReadme repo) =
      [⟨repo.GetName, User.GetLogin repo.GetOwner, repo.GetFullName, repo.GetDescription,
        repo.Topics, if (fetchREADME getReadme).2 = none then (fetchREADME getReadme).1 else "",
        repo.GetStargazersCount, repo.GetLanguage⟩] ∧
    (publishedErrors (processRepo config marshal getReadme repo)).length ≤ 1 ∧
    (processRepo config marshal getReadme repo).getLast? = some .wgDone ∧
    WorkerEvent.nilDereference ∉ processRepo config marshal getReadme repo := by
  have hrec : ∀ readme : String,
      publishedResults (processRepoRecord config marshal repo readme) =
        [⟨repo.GetName, User.GetLogin repo.GetOwner, repo.GetFullName, repo.GetDescription,
          repo.Topics, readme, repo.GetStargazersCount, repo.GetLanguage⟩] ∧
      (publishedErrors (processRepoRecord config marshal repo readme)).length ≤ 1 ∧
      (processRepoRecord config marshal repo readme).getLast? = some .wgDone ∧
      WorkerEvent.nilDereference ∉ processRepoRecord config marshal repo readme := by
    intro readme
    simp only [processRepoRecord]
    split <;> simp [publishedResults, publishedErrors]
  cases hf : (fetchREADME getReadme).2 with
  | none => simpa [processRepo, hf] using hrec (fetchREADME getReadme).1
  | some e =>
    have hfull : repo.FullName ≠ none := by
      rcases h with h | h
      · rw [hf] at h; cases h
      · exact h
    cases hn : repo.FullName with
    | none => exact absurd hn hfull
    | some name => simpa [processRepo, hf, hn] using hrec ""

/-- C7: when the README fetch fails (in `GetReadme` or in `GetContent`) for a repository whose
`FullName` is nil, `processRepo` panics on `*repo.FullName` in the warning line: it publishes no
record at all; only the deferred `wg.Done` runs. -/
theorem processRepo_nil_FullName_panics (config : ScanConfig)
    (marshal : RepoData → Resp String) (e : GoError) (name : Option String)
    (owner : Option User) (description : Option String) (topics : List String)
    (stars : Option Int) (language : Option String) :
    processRepo config marshal (.err e) ⟨name, owner, none, description, topics, stars, language⟩
      = [.nilDereference, .wgDone] ∧
    processRepo config marshal (.ok ⟨.err e⟩)
        ⟨name, owner, none, description, topics, stars, language⟩
      = [.nilDereference, .wgDone] ∧
    publishedResults (processRepo config marshal (.err e)
        ⟨name, owner, none, description, topics, stars, language⟩) = [] :=
  ⟨rfl, rfl, rfl⟩

/-! ## The Result Aggregator (C10) -/

/-- C10: `processResults` returns as soon as it sees either stream closed.  After a worker has
sent a record and `Run` has closed both streams, the `select` may take the closed error stream
and return with the record unread and nothing logged; and between the two `close` calls of `Run`
it may take the closed result stream and return while the error stream is still open, also with
an error unread. -/
theorem processResults_returns_early :
    runSchedule AggState.init
        [.sendResult sampleRecord, .closeResults, .closeErrors, .select .errors] =
      some ⟨⟨[sampleRecord], true⟩, ⟨[], true⟩, [], true⟩ ∧
    runSchedule AggState.init [.closeResults, .select .results] =
      some ⟨⟨[], true⟩, ⟨[], false⟩, [], true⟩ ∧
    runSchedule AggState.init
        [.sendError (.plain "sink down"), .closeResults, .select .results] =
      some ⟨⟨[], true⟩, ⟨[.plain "sink down"], false⟩, [], true⟩ := by
  refine ⟨?_, ?_, ?_⟩ <;> rfl

end RuvScan
